import Mathlib

/-!
Shallow embedding of the CHIP-8 interpreter core of arnavb/chip8_emu
(src/emu.rs) and verification of the frozen claims about it.

Modelling conventions:
* Machine integers (u8, u16) are Nat with an explicit `% 2^w` at every
  operation where the Rust code wraps (wrapping_add, overflowing_add/sub,
  u8 shifts, u16 additions that may exceed the width).  Additions that are
  guarded so that they cannot overflow (e.g. the PC advance in fetch, which
  is guarded by the bounds check) are written without the mod.
* Fallible operations return `Except Emu Emu`: `Except.error s` models a
  panic (failed assertion, out-of-bounds slice index, todo!(), or
  unimplemented!()), carrying the state `s` of the machine at the moment of
  the panic, so that partially applied effects of an instruction are
  observable in the model.
* The byte drawn from the process-wide random generator for opcode CXNN is
  passed to `execute`/`tick` as an explicit argument `rnd`.
* Fixed-size arrays are total functions `Nat → _`; reads that Rust
  bounds-checks are guarded by the corresponding bound and fault otherwise.
-/

/-- Modelled from the spec: `constants.rs` is not under src/; the spec fixes a
4096-byte memory. -/
def RAM_SIZE : Nat := 4096

/-- Modelled from the spec: display width, conventionally 64. -/
def SCREEN_WIDTH : Nat := 64

/-- Modelled from the spec: display height, conventionally 32. -/
def SCREEN_HEIGHT : Nat := 32

/-- Modelled from the spec: 16 general-purpose registers V0..VF. -/
def NUM_REGS : Nat := 16

/-- Modelled from the spec: call stack of 16 slots. -/
def STACK_SIZE : Nat := 16

/-- Modelled from the spec: 16 keypad slots 0x0..0xF. -/
def NUM_KEYS : Nat := 16

/-- Modelled from the spec: program load offset 0x200. -/
def START_ADDR : Nat := 512

/-- Pointwise update of a Nat-valued array modelled as a function. -/
def upd (f : Nat → Nat) (i v : Nat) : Nat → Nat :=
  fun j => if j = i then v else f j

/-- Pointwise update of a Bool-valued array modelled as a function. -/
def updB (f : Nat → Bool) (i : Nat) (v : Bool) : Nat → Bool :=
  fun j => if j = i then v else f j

/-- The interpreter state (struct Emu in src/emu.rs). -/
structure Emu where
  pc : Nat
  ram : Nat → Nat
  screen : Nat → Bool
  v_reg : Nat → Nat
  i_reg : Nat
  sp : Nat
  stack : Nat → Nat
  keys : Nat → Bool
  dt : Nat
  st : Nat

/-- Emu::tick_timers.  When st == 1 the Rust code executes todo!(), which
panics; the error value carries the state at the panic (the dt decrement has
already happened at that point). -/
def tick_timers (e : Emu) : Except Emu Emu :=
  let e1 := if 0 < e.dt then { e with dt := e.dt - 1 } else e
  if e1.st = 1 then Except.error e1
  else Except.ok (if 0 < e1.st then { e1 with st := e1.st - 1 } else e1)

/-- Emu::fetch.  The debug_assert (pc < RAM_SIZE - 1) coincides with the
slice bounds check on ram[pc + 1]; on fault the state is unchanged.  The
PC advance cannot overflow u16 because pc + 1 < 4096. -/
def fetch (e : Emu) : Except Emu (Nat × Emu) :=
  if e.pc + 1 < RAM_SIZE then
    Except.ok (e.ram e.pc * 256 + e.ram (e.pc + 1), { e with pc := e.pc + 2 })
  else Except.error e

/-- Emu::push.  The debug_assert (sp < STACK_SIZE) coincides with the slice
bounds check on stack[sp]; sp + 1 cannot overflow u16. -/
def push (e : Emu) (val : Nat) : Except Emu Emu :=
  if e.sp < STACK_SIZE then
    Except.ok { e with stack := upd e.stack e.sp val, sp := e.sp + 1 }
  else Except.error e

/-- Emu::pop.  The debug_assert (sp > 0) fires before sp is decremented, so
the error state is unchanged. -/
def pop (e : Emu) : Except Emu (Nat × Emu) :=
  if 0 < e.sp then Except.ok (e.stack (e.sp - 1), { e with sp := e.sp - 1 })
  else Except.error e

/-- A bounds-checked write to ram (a Rust slice write, which panics when the
index is out of bounds). -/
def ramWrite (e : Emu) (a v : Nat) : Except Emu Emu :=
  if a < RAM_SIZE then Except.ok { e with ram := upd e.ram a v }
  else Except.error e

/-- The scan of keys.iter().position(|&key| key): first pressed index at or
after start, examining fuel further slots. -/
def scanKeys (e : Emu) : Nat → Nat → Option Nat
  | _, 0 => none
  | start, fuel + 1 =>
    if e.keys start = true then some start else scanKeys e (start + 1) fuel

/-- self.keys.iter().position(|&key| key) in the FX0A arm. -/
def firstKey (e : Emu) : Option Nat := scanKeys e 0 NUM_KEYS

/-- The screen index SCREEN_WIDTH * screen_y + screen_x computed in the DXYN
arm: screen_x = (x_coord + row) as u8-sum cast and reduced mod SCREEN_WIDTH,
screen_y likewise with col and SCREEN_HEIGHT. -/
def screenIdx (xc yc row col : Nat) : Nat :=
  SCREEN_WIDTH * ((yc + col) % 256 % SCREEN_HEIGHT) + (xc + row) % 256 % SCREEN_WIDTH

/-- The inner col-loop of the DXYN arm over the given list of column indices
(the code iterates over 0..8).  The debug_assert in the source bounds the
index by SCREEN_HEIGHT * SCREEN_HEIGHT (not WIDTH * HEIGHT); it is modelled
as a fault when it fails.  pixel_unset is accumulated before the toggle. -/
def drawCols (xc yc row b : Nat) : List Nat → Emu → Bool → Except Emu (Emu × Bool)
  | [], e, pu => Except.ok (e, pu)
  | col :: rest, e, pu =>
    if b / 2 ^ col % 2 = 1 then
      let idx := screenIdx xc yc row col
      if idx < SCREEN_HEIGHT * SCREEN_HEIGHT then
        drawCols xc yc row b rest
          { e with screen := updB e.screen idx (!e.screen idx) } (pu || e.screen idx)
      else Except.error e
    else drawCols xc yc row b rest e pu

/-- The outer row-loop of the DXYN arm over the given list of row indices
(the code iterates over 0..n).  The sprite row is read from
ram[(i_reg + row) as u16], a bounds-checked slice read. -/
def drawRows (xc yc : Nat) : List Nat → Emu → Bool → Except Emu (Emu × Bool)
  | [], e, pu => Except.ok (e, pu)
  | row :: rest, e, pu =>
    let addr := (e.i_reg + row) % 65536
    if addr < RAM_SIZE then
      match drawCols xc yc row (e.ram addr) (List.range 8) e pu with
      | Except.ok (e', pu') => drawRows xc yc rest e' pu'
      | Except.error e' => Except.error e'
    else Except.error e

/-- The FX55 loop: for idx in 0..=x, ram[i + idx] = v_reg[idx]; each write is
bounds-checked, so a fault can leave the earlier writes applied. -/
def storeRegs (iBase : Nat) : List Nat → Emu → Except Emu Emu
  | [], e => Except.ok e
  | idx :: rest, e =>
    if iBase + idx < RAM_SIZE then
      storeRegs iBase rest { e with ram := upd e.ram (iBase + idx) (e.v_reg idx) }
    else Except.error e

/-- The FX65 loop: for idx in 0..=x, v_reg[idx] = ram[i + idx]; each read is
bounds-checked. -/
def loadRegs (iBase : Nat) : List Nat → Emu → Except Emu Emu
  | [], e => Except.ok e
  | idx :: rest, e =>
    if iBase + idx < RAM_SIZE then
      loadRegs iBase rest { e with v_reg := upd e.v_reg idx (e.ram (iBase + idx)) }
    else Except.error e

/-- Emu::execute, as a function of the four decoded nibbles (the Rust match
on [op >> 12, op >> 8, op >> 4, op] each masked with 0xF); op is also passed
so that the arms can recover nn = op & 0xFF and nnn = op & 0xFFF.  rnd is
the byte drawn from the process-wide generator for CXNN.  The final wildcard
arm models the unimplemented!() panic. -/
def executeNib (rnd : Nat) (e : Emu) (op n0 x y n : Nat) : Except Emu Emu :=
  let nn := op % 256
  let nnn := op % 4096
  match n0, x, y, n with
  | 0, 0, 0, 0 => Except.ok e
  | 0, 0, 14, 0 => Except.ok { e with screen := fun _ => false }
  | 0, 0, 14, 14 =>
    match pop e with
    | Except.ok (ret_addr, e1) => Except.ok { e1 with pc := ret_addr }
    | Except.error e1 => Except.error e1
  | 1, _, _, _ => Except.ok { e with pc := nnn }
  | 2, _, _, _ =>
    match push e e.pc with
    | Except.ok e1 => Except.ok { e1 with pc := nnn }
    | Except.error e1 => Except.error e1
  | 3, _, _, _ =>
    Except.ok (if e.v_reg x = nn then { e with pc := (e.pc + 2) % 65536 } else e)
  | 4, _, _, _ =>
    Except.ok (if e.v_reg x ≠ nn then { e with pc := (e.pc + 2) % 65536 } else e)
  | 5, _, _, 0 =>
    Except.ok (if e.v_reg x = e.v_reg y then { e with pc := (e.pc + 2) % 65536 } else e)
  | 6, _, _, _ => Except.ok { e with v_reg := upd e.v_reg x nn }
  | 7, _, _, _ => Except.ok { e with v_reg := upd e.v_reg x ((e.v_reg x + nn) % 256) }
  | 8, _, _, 0 => Except.ok { e with v_reg := upd e.v_reg x (e.v_reg y) }
  | 8, _, _, 1 => Except.ok { e with v_reg := upd e.v_reg x (Nat.lor (e.v_reg x) (e.v_reg y)) }
  | 8, _, _, 2 => Except.ok { e with v_reg := upd e.v_reg x (Nat.land (e.v_reg x) (e.v_reg y)) }
  | 8, _, _, 3 => Except.ok { e with v_reg := upd e.v_reg x (Nat.xor (e.v_reg x) (e.v_reg y)) }
  | 8, _, _, 4 =>
    let new_vx := (e.v_reg x + e.v_reg y) % 256
    let new_vf := if 256 ≤ e.v_reg x + e.v_reg y then 1 else 0
    Except.ok { e with v_reg := upd (upd e.v_reg x new_vx) 15 new_vf }
  | 8, _, _, 5 =>
    let new_vx := if e.v_reg y ≤ e.v_reg x then e.v_reg x - e.v_reg y
      else 256 + e.v_reg x - e.v_reg y
    let new_vf := if e.v_reg x < e.v_reg y then 0 else 1
    Except.ok { e with v_reg := upd (upd e.v_reg x new_vx) 15 new_vf }
  | 8, _, _, 6 =>
    Except.ok { e with v_reg := upd (upd e.v_reg x (e.v_reg x / 2)) 15 (e.v_reg x % 2) }
  | 8, _, _, 7 =>
    let new_vx := if e.v_reg x ≤ e.v_reg y then e.v_reg y - e.v_reg x
      else 256 + e.v_reg y - e.v_reg x
    let new_vf := if e.v_reg y < e.v_reg x then 0 else 1
    Except.ok { e with v_reg := upd (upd e.v_reg x new_vx) 15 new_vf }
  | 8, _, _, 14 =>
    Except.ok { e with v_reg := upd (upd e.v_reg x (e.v_reg x * 2 % 256)) 15 (e.v_reg x / 128 % 2) }
  | 9, _, _, 0 =>
    Except.ok (if e.v_reg x ≠ e.v_reg y then { e with pc := (e.pc + 2) % 65536 } else e)
  | 10, _, _, _ => Except.ok { e with i_reg := nnn }
  | 11, _, _, _ => Except.ok { e with pc := (e.v_reg 0 + nnn) % 65536 }
  | 12, _, _, _ => Except.ok { e with v_reg := upd e.v_reg x (Nat.land (rnd % 256) nn) }
  | 13, _, _, _ =>
    match drawRows (e.v_reg x) (e.v_reg y) (List.range n) e false with
    | Except.ok (e1, pixel_unset) =>
      Except.ok { e1 with v_reg := upd e1.v_reg 15 (if pixel_unset then 1 else 0) }
    | Except.error e1 => Except.error e1
  | 14, _, 9, 14 =>
    if e.v_reg x < NUM_KEYS then
      Except.ok (if e.keys (e.v_reg x) then { e with pc := (e.pc + 2) % 65536 } else e)
    else Except.error e
  | 14, _, 10, 1 =>
    if e.v_reg x < NUM_KEYS then
      Except.ok (if !e.keys (e.v_reg x) then { e with pc := (e.pc + 2) % 65536 } else e)
    else Except.error e
  | 15, _, 0, 7 => Except.ok { e with v_reg := upd e.v_reg x e.dt }
  | 15, _, 0, 10 =>
    match firstKey e with
    | some position => Except.ok { e with v_reg := upd e.v_reg x position }
    | none => Except.ok { e with pc := (e.pc + 65536 - 2) % 65536 }
  | 15, _, 1, 5 => Except.ok { e with dt := e.v_reg x }
  | 15, _, 1, 8 => Except.ok { e with st := e.v_reg x }
  | 15, _, 1, 14 => Except.ok { e with i_reg := (e.i_reg + e.v_reg x) % 65536 }
  | 15, _, 2, 9 => Except.ok { e with i_reg := e.v_reg x * 5 % 65536 }
  | 15, _, 3, 3 =>
    match ramWrite e e.i_reg (e.v_reg x / 100) with
    | Except.error e1 => Except.error e1
    | Except.ok e1 =>
      match ramWrite e1 ((e.i_reg + 1) % 65536) (e.v_reg x / 10 % 10) with
      | Except.error e2 => Except.error e2
      | Except.ok e2 =>
        match ramWrite e2 ((e.i_reg + 2) % 65536) (e.v_reg x % 10) with
        | Except.error e3 => Except.error e3
        | Except.ok e3 => Except.ok e3
  | 15, _, 5, 5 => storeRegs e.i_reg (List.range (x + 1)) e
  | 15, _, 6, 5 => loadRegs e.i_reg (List.range (x + 1)) e
  | _, _, _, _ => Except.error e

/-- Emu::execute: decode the four nibbles of op and dispatch. -/
def execute (rnd : Nat) (e : Emu) (op : Nat) : Except Emu Emu :=
  executeNib rnd e op (op / 4096 % 16) (op / 256 % 16) (op / 16 % 16) (op % 16)

/-- Emu::tick: fetch then execute. -/
def tick (rnd : Nat) (e : Emu) : Except Emu Emu :=
  match fetch e with
  | Except.ok (op, e1) => execute rnd e1 op
  | Except.error e1 => Except.error e1

/-- A 16-bit opcode built from four nibbles. -/
def opcode (a b c d : Nat) : Nat := a * 4096 + b * 256 + c * 16 + d

/-- The freshly constructed machine with all-zero registers and memory
(the glyph table content is irrelevant to the claims, so ram is all zero
here; concrete states below override the cells they need). -/
def emu0 : Emu :=
  { pc := START_ADDR, ram := fun _ => 0, screen := fun _ => false,
    v_reg := fun _ => 0, i_reg := 0, sp := 0, stack := fun _ => 0,
    keys := fun _ => false, dt := 0, st := 0 }

/-- State with VF = 200 and V0 = 100, exercising the 8XY4/8XY5 arms at X = F. -/
def cexFlagEmu : Emu :=
  { emu0 with v_reg := fun i => if i = 15 then 200 else if i = 0 then 100 else 0 }

/-- State with VF = 2, exercising the 8XY6 arm at X = F. -/
def cexShiftEmu : Emu :=
  { emu0 with v_reg := fun i => if i = 15 then 2 else 0 }

/-- State with V0 = 250 and V1 = 10, a generic operand pair for witnesses. -/
def wArithEmu : Emu :=
  { emu0 with v_reg := fun i => if i = 0 then 250 else if i = 1 then 10 else 0 }

/-- State whose program is F155 (store V0..V1 at I) with I = 4095, so the
second store of the instruction is out of bounds while the first is not. -/
def cexPartialEmu : Emu :=
  { emu0 with
    ram := fun a => if a = 512 then 241 else if a = 513 then 85 else 0,
    i_reg := 4095,
    v_reg := fun i => if i = 0 then 7 else 0 }

/-- State with I = 100, for the FX55/FX65 frame-effect witness. -/
def wStoreEmu : Emu := { emu0 with i_reg := 100 }

/-- State whose program is F00A (wait for key into V0) at the load offset,
with no key pressed. -/
def wFx0aEmu : Emu :=
  { emu0 with ram := fun a => if a = 512 then 240 else if a = 513 then 10 else 0 }

/-- State whose program is 2300 (call 0x300) at the load offset and 00EE
(return) at 0x300. -/
def wCallEmu : Emu :=
  { emu0 with ram := fun a =>
      if a = 512 then 35 else if a = 513 then 0 else
      if a = 768 then 0 else if a = 769 then 238 else 0 }

/-- State whose sprite is the single byte 0x01 at address 0, drawn with
anchor (VX, VY) = (0, 16): the single target pixel has screen y = 16, index
1024, which is correct and within the 64 x 32 display but fails the buggy
debug assertion bound SCREEN_HEIGHT * SCREEN_HEIGHT = 1024. -/
def cexDrawEmu : Emu :=
  { emu0 with
    ram := fun a => if a = 0 then 1 else 0,
    v_reg := fun i => if i = 1 then 16 else 0 }

/-- State whose sprite is the single byte 0x01 at address 0, drawn with
anchor (0, 0) on a blank screen. -/
def cexDraw2Emu : Emu :=
  { emu0 with ram := fun a => if a = 0 then 1 else 0 }

/-- Sequential XOR-toggles of the screen at the given indices, accumulating
the pixel_unset flag exactly as the DXYN loop does (examine, then toggle). -/
def toggleAcc (s : Nat → Bool) (pu : Bool) : List Nat → ((Nat → Bool) × Bool)
  | [] => (s, pu)
  | t :: ts => toggleAcc (updB s t (!s t)) (pu || s t) ts

/-- Number of occurrences of j in a list. -/
def occ (j : Nat) : List Nat → Nat
  | [] => 0
  | t :: ts => occ j ts + (if j = t then 1 else 0)

/-- The screen indices targeted by the set bits of sprite row b among the
given column indices, in iteration order. -/
def colTargets (xc yc row b : Nat) : List Nat → List Nat
  | [] => []
  | c :: cs =>
    if b / 2 ^ c % 2 = 1 then screenIdx xc yc row c :: colTargets xc yc row b cs
    else colTargets xc yc row b cs

/-- The screen indices targeted by sprite row b (columns 0..7). -/
def rowTargets (xc yc row b : Nat) : List Nat :=
  colTargets xc yc row b (List.range 8)

/-- All screen indices targeted by a draw over the given row indices, in
iteration order, reading sprite rows from the given state's memory. -/
def drawTargets (e : Emu) (xc yc : Nat) : List Nat → List Nat
  | [] => []
  | r :: rs =>
    rowTargets xc yc r (e.ram ((e.i_reg + r) % 65536)) ++ drawTargets e xc yc rs

/-! ## Helper lemmas -/

theorem upd_self (f : Nat → Nat) (i v : Nat) : upd f i v i = v := by
  simp [upd]

theorem upd_ne (f : Nat → Nat) (i v j : Nat) (h : j ≠ i) : upd f i v j = f j := by
  simp [upd, h]

theorem execute_eq (rnd : Nat) (e : Emu) (op : Nat) :
    execute rnd e op =
      executeNib rnd e op (op / 4096 % 16) (op / 256 % 16) (op / 16 % 16) (op % 16) := rfl

theorem opcode_nib0 (a b c d : Nat) (ha : a < 16) (hb : b < 16) (hc : c < 16)
    (hd : d < 16) : opcode a b c d / 4096 % 16 = a := by
  unfold opcode; omega

theorem opcode_nib1 (a b c d : Nat) (ha : a < 16) (hb : b < 16) (hc : c < 16)
    (hd : d < 16) : opcode a b c d / 256 % 16 = b := by
  unfold opcode; omega

theorem opcode_nib2 (a b c d : Nat) (ha : a < 16) (hb : b < 16) (hc : c < 16)
    (hd : d < 16) : opcode a b c d / 16 % 16 = c := by
  unfold opcode; omega

theorem opcode_nib3 (a b c d : Nat) (ha : a < 16) (hb : b < 16) (hc : c < 16)
    (hd : d < 16) : opcode a b c d % 16 = d := by
  unfold opcode; omega

theorem execute_opcode (rnd : Nat) (e : Emu) (a b c d : Nat) (ha : a < 16)
    (hb : b < 16) (hc : c < 16) (hd : d < 16) :
    execute rnd e (opcode a b c d) = executeNib rnd e (opcode a b c d) a b c d := by
  rw [execute_eq, opcode_nib0 a b c d ha hb hc hd, opcode_nib1 a b c d ha hb hc hd,
    opcode_nib2 a b c d ha hb hc hd, opcode_nib3 a b c d ha hb hc hd]

theorem flag_eq (S : Nat) : (if 256 ≤ S then (1 : Nat) else 0) = if 255 < S then 1 else 0 := by
  by_cases h : 256 ≤ S
  · rw [if_pos h, if_pos (by omega)]
  · rw [if_neg h, if_neg (by omega)]

/-! ## Claim C1 -/

/-- Claim C1 (code bug): the claim states that tick_timers decrements DT and
ST toward zero and changes nothing else, but when ST = 1 the code reaches
todo!() and panics before decrementing ST.  This theorem evaluates the model
at the failing input DT = 0, ST = 1: the call faults. -/
theorem claimC1_todo_fault :
    tick_timers { emu0 with st := 1 } = Except.error { emu0 with st := 1 } := rfl

/-! ## Claim C4 -/

/-- Claim C4 counterexample: at X = F the claim fails.  With VF = 200,
V0 = 100, executing 8F04 (op 36612) leaves VF = 1 (the carry flag), not
(VF + V0) mod 256 = 44 as the claim requires for VX when X = F. -/
theorem claimC4_counterexample :
    ¬ (∀ e1, execute 0 cexFlagEmu 36612 = Except.ok e1 →
        e1.v_reg 15 = (cexFlagEmu.v_reg 15 + cexFlagEmu.v_reg 0) % 256) := by
  intro h
  have h1 := h _ rfl
  exact absurd h1 (by decide)

/-- Claim C4 (amended): for every state and registers X, Y with X ≠ 0xF,
executing 8XY4 sets VX to (VX + VY) mod 256 and VF to 1 iff the unsigned sum
exceeds 255, else 0.  (When X = 0xF the subsequent flag write overwrites the
sum, see the counterexample.) -/
theorem claimC4_amended (rnd : Nat) (e : Emu) (op : Nat)
    (h8 : op / 4096 % 16 = 8) (h4 : op % 16 = 4) (hx : op / 256 % 16 ≠ 15) :
    ∃ e1, execute rnd e op = Except.ok e1 ∧
      e1.v_reg (op / 256 % 16) =
        (e.v_reg (op / 256 % 16) + e.v_reg (op / 16 % 16)) % 256 ∧
      e1.v_reg 15 =
        (if 255 < e.v_reg (op / 256 % 16) + e.v_reg (op / 16 % 16) then 1 else 0) := by
  have hE : execute rnd e op =
      Except.ok { e with
        v_reg := (upd (upd e.v_reg (op / 256 % 16)
          ((e.v_reg (op / 256 % 16) + e.v_reg (op / 16 % 16)) % 256)) 15
          (if 256 ≤ e.v_reg (op / 256 % 16) + e.v_reg (op / 16 % 16) then 1 else 0)) } := by
    rw [execute_eq, h8, h4]
    rfl
  refine ⟨_, hE, ?_, ?_⟩
  · simp [upd, hx]
  · simp [upd, flag_eq]

/-- Claim C4 witness: the amended theorem applied at V0 = 250, V1 = 10,
op 8014. -/
theorem claimC4_amended_witness :
    ∃ e1, execute 0 wArithEmu 32788 = Except.ok e1 ∧
      e1.v_reg (32788 / 256 % 16) =
        (wArithEmu.v_reg (32788 / 256 % 16) + wArithEmu.v_reg (32788 / 16 % 16)) % 256 ∧
      e1.v_reg 15 =
        (if 255 < wArithEmu.v_reg (32788 / 256 % 16) + wArithEmu.v_reg (32788 / 16 % 16)
         then 1 else 0) :=
  claimC4_amended 0 wArithEmu 32788 (by decide) (by decide) (by decide)

/-! ## Claim C5 -/

/-- Claim C5 counterexample: at X = F the claim fails.  With VF = 200,
V0 = 100, executing 8F05 (op 36613) leaves VF = 1 (the no-borrow flag), not
(VF − V0) mod 256 = 100 as the claim requires for VX when X = F. -/
theorem claimC5_counterexample :
    ¬ (∀ e1, execute 0 cexFlagEmu 36613 = Except.ok e1 →
        e1.v_reg 15 = (cexFlagEmu.v_reg 15 + 256 - cexFlagEmu.v_reg 0) % 256) := by
  intro h
  have h1 := h _ rfl
  exact absurd h1 (by decide)

/-- Claim C5 (amended): for every state with byte-valued VX, VY and registers
X, Y with X ≠ 0xF, executing 8XY5 sets VX to (VX − VY) mod 256 (written
(VX + 256 − VY) mod 256 over Nat) and VF to 1 iff no borrow occurred
(VX ≥ VY), else 0.  (When X = 0xF the flag write overwrites the difference.) -/
theorem claimC5_amended (rnd : Nat) (e : Emu) (op : Nat)
    (h8 : op / 4096 % 16 = 8) (h5 : op % 16 = 5) (hx : op / 256 % 16 ≠ 15)
    (hbx : e.v_reg (op / 256 % 16) < 256) (hby : e.v_reg (op / 16 % 16) < 256) :
    ∃ e1, execute rnd e op = Except.ok e1 ∧
      e1.v_reg (op / 256 % 16) =
        (e.v_reg (op / 256 % 16) + 256 - e.v_reg (op / 16 % 16)) % 256 ∧
      e1.v_reg 15 =
        (if e.v_reg (op / 16 % 16) ≤ e.v_reg (op / 256 % 16) then 1 else 0) := by
  have hE : execute rnd e op =
      Except.ok { e with
        v_reg := (upd (upd e.v_reg (op / 256 % 16)
          (if e.v_reg (op / 16 % 16) ≤ e.v_reg (op / 256 % 16)
           then e.v_reg (op / 256 % 16) - e.v_reg (op / 16 % 16)
           else 256 + e.v_reg (op / 256 % 16) - e.v_reg (op / 16 % 16))) 15
          (if e.v_reg (op / 256 % 16) < e.v_reg (op / 16 % 16) then 0 else 1)) } := by
    rw [execute_eq, h8, h5]
    rfl
  refine ⟨_, hE, ?_, ?_⟩
  · by_cases hc : e.v_reg (op / 16 % 16) ≤ e.v_reg (op / 256 % 16)
    · simp [upd, hx, hc]
      omega
    · simp [upd, hx, hc]
      omega
  · by_cases hc : e.v_reg (op / 16 % 16) ≤ e.v_reg (op / 256 % 16)
    · simp [upd, hc, Nat.not_lt.mpr hc]
    · have h' := Nat.lt_of_not_le hc
      simp [upd, hc, h']

/-- Claim C5 witness: the amended theorem applied at V0 = 250, V1 = 10,
op 8015. -/
theorem claimC5_amended_witness :
    ∃ e1, execute 0 wArithEmu 32789 = Except.ok e1 ∧
      e1.v_reg (32789 / 256 % 16) =
        (wArithEmu.v_reg (32789 / 256 % 16) + 256 -
          wArithEmu.v_reg (32789 / 16 % 16)) % 256 ∧
      e1.v_reg 15 =
        (if wArithEmu.v_reg (32789 / 16 % 16) ≤ wArithEmu.v_reg (32789 / 256 % 16)
         then 1 else 0) :=
  claimC5_amended 0 wArithEmu 32789 (by decide) (by decide) (by decide) (by decide) (by decide)

/-! ## Claim C6 -/

/-- Claim C6 counterexample: at X = F the claim fails.  With VF = 2,
executing 8F06 (op 36614) leaves VF = 0 (the captured low bit), not
VF >> 1 = 1 as the claim requires for VX when X = F. -/
theorem claimC6_counterexample :
    ¬ (∀ e1, execute 0 cexShiftEmu 36614 = Except.ok e1 →
        e1.v_reg 15 = cexShiftEmu.v_reg 15 / 2) := by
  intro h
  have h1 := h _ rfl
  exact absurd h1 (by decide)

/-- Claim C6 (amended): for every state and register X ≠ 0xF, 8XY6 sets VF to
the low bit of the pre-shift VX and VX to VX >> 1, and 8XYE sets VF to the
high bit of the pre-shift VX and VX to (VX << 1) mod 256; VY is never
consulted, so the result is identical for every Y nibble.  (When X = 0xF the
flag write overwrites the shifted value, see the counterexample.) -/
theorem claimC6_amended (rnd : Nat) (e : Emu) (x y y' : Nat)
    (hx : x < 16) (hy : y < 16) (hy' : y' < 16) (hx15 : x ≠ 15) :
    ((∃ e1, execute rnd e (opcode 8 x y 6) = Except.ok e1 ∧
        e1.v_reg 15 = e.v_reg x % 2 ∧ e1.v_reg x = e.v_reg x / 2) ∧
     (∃ e1, execute rnd e (opcode 8 x y 14) = Except.ok e1 ∧
        e1.v_reg 15 = e.v_reg x / 128 % 2 ∧ e1.v_reg x = e.v_reg x * 2 % 256) ∧
     execute rnd e (opcode 8 x y 6) = execute rnd e (opcode 8 x y' 6) ∧
     execute rnd e (opcode 8 x y 14) = execute rnd e (opcode 8 x y' 14)) := by
  have h6 : execute rnd e (opcode 8 x y 6) =
      Except.ok { e with
        v_reg := (upd (upd e.v_reg x (e.v_reg x / 2)) 15 (e.v_reg x % 2)) } := by
    rw [execute_opcode rnd e 8 x y 6 (by omega) hx hy (by omega)]
    rfl
  have h14 : execute rnd e (opcode 8 x y 14) =
      Except.ok { e with
        v_reg := (upd (upd e.v_reg x (e.v_reg x * 2 % 256)) 15 (e.v_reg x / 128 % 2)) } := by
    rw [execute_opcode rnd e 8 x y 14 (by omega) hx hy (by omega)]
    rfl
  have h6' : execute rnd e (opcode 8 x y' 6) =
      Except.ok { e with
        v_reg := (upd (upd e.v_reg x (e.v_reg x / 2)) 15 (e.v_reg x % 2)) } := by
    rw [execute_opcode rnd e 8 x y' 6 (by omega) hx hy' (by omega)]
    rfl
  have h14' : execute rnd e (opcode 8 x y' 14) =
      Except.ok { e with
        v_reg := (upd (upd e.v_reg x (e.v_reg x * 2 % 256)) 15 (e.v_reg x / 128 % 2)) } := by
    rw [execute_opcode rnd e 8 x y' 14 (by omega) hx hy' (by omega)]
    rfl
  refine ⟨⟨_, h6, ?_, ?_⟩, ⟨_, h14, ?_, ?_⟩, by rw [h6, h6'], by rw [h14, h14']⟩
  · simp [upd]
  · simp [upd, hx15]
  · simp [upd]
  · simp [upd, hx15]

/-- Claim C6 witness: the amended theorem applied at X = 0, Y = 1, Y-prime = 2
on the state with V0 = 250. -/
theorem claimC6_amended_witness :
    ((∃ e1, execute 0 wArithEmu (opcode 8 0 1 6) = Except.ok e1 ∧
        e1.v_reg 15 = wArithEmu.v_reg 0 % 2 ∧ e1.v_reg 0 = wArithEmu.v_reg 0 / 2) ∧
     (∃ e1, execute 0 wArithEmu (opcode 8 0 1 14) = Except.ok e1 ∧
        e1.v_reg 15 = wArithEmu.v_reg 0 / 128 % 2 ∧
        e1.v_reg 0 = wArithEmu.v_reg 0 * 2 % 256) ∧
     execute 0 wArithEmu (opcode 8 0 1 6) = execute 0 wArithEmu (opcode 8 0 2 6) ∧
     execute 0 wArithEmu (opcode 8 0 1 14) = execute 0 wArithEmu (opcode 8 0 2 14)) :=
  claimC6_amended 0 wArithEmu 0 1 2 (by decide) (by decide) (by decide) (by decide)

/-! ## Claim C10 -/

theorem storeRegs_ok (iBase : Nat) (l : List Nat) (e : Emu)
    (h : ∀ j ∈ l, iBase + j < RAM_SIZE) :
    ∃ e1, storeRegs iBase l e = Except.ok e1 ∧ e1.i_reg = e.i_reg := by
  induction l generalizing e with
  | nil => exact ⟨e, rfl, rfl⟩
  | cons a t ih =>
    obtain ⟨e1, h1, h2⟩ := ih { e with ram := upd e.ram (iBase + a) (e.v_reg a) }
      (fun j hj => h j (List.mem_cons_of_mem a hj))
    refine ⟨e1, ?_, h2⟩
    simp only [storeRegs]
    rw [if_pos (h a (List.mem_cons_self a t))]
    exact h1

theorem loadRegs_ok (iBase : Nat) (l : List Nat) (e : Emu)
    (h : ∀ j ∈ l, iBase + j < RAM_SIZE) :
    ∃ e1, loadRegs iBase l e = Except.ok e1 ∧ e1.i_reg = e.i_reg := by
  induction l generalizing e with
  | nil => exact ⟨e, rfl, rfl⟩
  | cons a t ih =>
    obtain ⟨e1, h1, h2⟩ := ih { e with v_reg := upd e.v_reg a (e.ram (iBase + a)) }
      (fun j hj => h j (List.mem_cons_of_mem a hj))
    refine ⟨e1, ?_, h2⟩
    simp only [loadRegs]
    rw [if_pos (h a (List.mem_cons_self a t))]
    exact h1

/-- Claim C10 (confirmed): for every state and register index X whose accessed
memory range I..I+X is in bounds, FX55 and FX65 leave the index register I
unchanged. -/
theorem claimC10_frame (rnd : Nat) (e : Emu) (x : Nat) (hx : x < 16)
    (hbound : e.i_reg + x < RAM_SIZE) :
    ((∃ e1, execute rnd e (opcode 15 x 5 5) = Except.ok e1 ∧ e1.i_reg = e.i_reg) ∧
     (∃ e1, execute rnd e (opcode 15 x 6 5) = Except.ok e1 ∧ e1.i_reg = e.i_reg)) := by
  constructor
  · rw [execute_opcode rnd e 15 x 5 5 (by omega) hx (by omega) (by omega)]
    show ∃ e1, storeRegs e.i_reg (List.range (x + 1)) e = Except.ok e1 ∧ e1.i_reg = e.i_reg
    exact storeRegs_ok _ _ _ (fun j hj => by have := List.mem_range.mp hj; omega)
  · rw [execute_opcode rnd e 15 x 6 5 (by omega) hx (by omega) (by omega)]
    show ∃ e1, loadRegs e.i_reg (List.range (x + 1)) e = Except.ok e1 ∧ e1.i_reg = e.i_reg
    exact loadRegs_ok _ _ _ (fun j hj => by have := List.mem_range.mp hj; omega)

/-- Claim C10 witness: the frame theorem applied at X = 15, I = 100. -/
theorem claimC10_frame_witness :
    ((∃ e1, execute 0 wStoreEmu (opcode 15 15 5 5) = Except.ok e1 ∧
        e1.i_reg = wStoreEmu.i_reg) ∧
     (∃ e1, execute 0 wStoreEmu (opcode 15 15 6 5) = Except.ok e1 ∧
        e1.i_reg = wStoreEmu.i_reg)) :=
  claimC10_frame 0 wStoreEmu 15 (by decide) (by decide)

/-! ## Claim C9 -/

/-- Claim C9 counterexample: a fault does not abort the whole step's effect.
On cexPartialEmu the fetched instruction is F155 (store V0..V1 at I = 4095);
the first store writes ram[4095] = 7, the second panics out of bounds, and at
the fault ram[4095] and the PC (advanced by fetch) are already updated. -/
theorem claimC9_counterexample :
    ¬ (∀ e1, tick 0 cexPartialEmu = Except.error e1 →
        e1.ram 4095 = cexPartialEmu.ram 4095 ∧ e1.pc = cexPartialEmu.pc) := by
  intro h
  obtain ⟨h1, h2⟩ := h _ rfl
  exact absurd h1 (by decide)

/-- Claim C9 (amended): a fault halts the step where it occurs; a fault
detected during fetch (PC out of bounds) leaves the state entirely unchanged,
while a fault inside execute happens after the fetch's PC advance and, for
multi-write instructions, after that instruction's earlier writes (see the
counterexample). -/
theorem claimC9_amended (rnd : Nat) (e : Emu) (h : RAM_SIZE ≤ e.pc + 1) :
    tick rnd e = Except.error e := by
  unfold tick fetch
  rw [if_neg (by omega)]

/-- Claim C9 witness: the amended theorem applied at PC = 5000. -/
theorem claimC9_amended_witness :
    tick 0 { emu0 with pc := 5000 } = Except.error { emu0 with pc := 5000 } :=
  claimC9_amended 0 { emu0 with pc := 5000 } (by decide)

/-! ## Claims C7 and C8 -/

theorem scanKeys_none (e : Emu) (f : Nat) :
    ∀ s, (∀ q, s ≤ q → q < s + f → e.keys q = false) → scanKeys e s f = none := by
  induction f with
  | zero => intro s _; rfl
  | succ f ih =>
    intro s h
    have hk : e.keys s = false := h s (Nat.le_refl s) (by omega)
    simp only [scanKeys, hk]
    simp only [Bool.false_eq_true, if_false]
    exact ih (s + 1) (fun q hq1 hq2 => h q (by omega) (by omega))

theorem scanKeys_some (e : Emu) (f : Nat) :
    ∀ s p, s ≤ p → p < s + f → e.keys p = true →
      (∀ q, s ≤ q → q < p → e.keys q = false) → scanKeys e s f = some p := by
  induction f with
  | zero => intro s p h1 h2 _ _; omega
  | succ f ih =>
    intro s p h1 h2 hp hlow
    by_cases hs : s = p
    · subst hs
      simp [scanKeys, hp]
    · have hk : e.keys s = false := hlow s (Nat.le_refl s) (by omega)
      simp only [scanKeys, hk]
      simp only [Bool.false_eq_true, if_false]
      exact ih (s + 1) p (by omega) (by omega) hp (fun q hq1 hq2 => hlow q (by omega) hq2)

/-- The FX0A arm of the nibble dispatch. -/
theorem executeNib_fx0a (rnd : Nat) (e : Emu) (op x : Nat) :
    executeNib rnd e op 15 x 0 10 =
      match firstKey e with
      | some position => Except.ok { e with v_reg := upd e.v_reg x position }
      | none => Except.ok { e with pc := (e.pc + 65536 - 2) % 65536 } := rfl

/-- The 2NNN arm of the nibble dispatch. -/
theorem executeNib_2nnn (rnd : Nat) (e : Emu) (op x y n : Nat) :
    executeNib rnd e op 2 x y n =
      match push e e.pc with
      | Except.ok e1 => Except.ok { e1 with pc := op % 4096 }
      | Except.error e1 => Except.error e1 := rfl

/-- The 00EE arm of the nibble dispatch. -/
theorem executeNib_ret (rnd : Nat) (e : Emu) (op : Nat) :
    executeNib rnd e op 0 0 14 14 =
      match pop e with
      | Except.ok (ret_addr, e1) => Except.ok { e1 with pc := ret_addr }
      | Except.error e1 => Except.error e1 := rfl

/-- One step, split into the fetch effect and the execute call. -/
theorem tick_eq (rnd : Nat) (e : Emu) (op : Nat) (hpc : e.pc + 1 < RAM_SIZE)
    (hop : e.ram e.pc * 256 + e.ram (e.pc + 1) = op) :
    tick rnd e = execute rnd { e with pc := e.pc + 2 } op := by
  unfold tick fetch
  rw [if_pos hpc, hop]

/-- Executing a call instruction on a non-full stack. -/
theorem execute_2nnn (rnd : Nat) (e : Emu) (op : Nat) (h0 : op / 4096 % 16 = 2)
    (hsp : e.sp < STACK_SIZE) :
    execute rnd e op =
      Except.ok { e with
        pc := op % 4096,
        stack := upd e.stack e.sp e.pc,
        sp := e.sp + 1 } := by
  rw [execute_eq, h0, executeNib_2nnn]
  unfold push
  rw [if_pos hsp]

/-- Executing the return instruction 00EE on a nonempty stack. -/
theorem execute_ret (rnd : Nat) (e : Emu) (h0 : 0 < e.sp) :
    execute rnd e 238 =
      Except.ok { e with pc := e.stack (e.sp - 1), sp := e.sp - 1 } := by
  show executeNib rnd e 238 0 0 14 14 = _
  rw [executeNib_ret]
  unfold pop
  rw [if_pos h0]

/-- Claim C7 (confirmed): a step whose instruction is FX0A either stores the
lowest pressed key index into VX and advances PC by 2, or, with no key
pressed, is a net no-op: the final state equals the initial state exactly. -/
theorem claimC7_fx0a (rnd : Nat) (e : Emu) (x : Nat) (hx : x < 16)
    (hpc : e.pc + 1 < RAM_SIZE)
    (hhi : e.ram e.pc = 240 + x) (hlo : e.ram (e.pc + 1) = 10) :
    (((∀ k, k < NUM_KEYS → e.keys k = false) → tick rnd e = Except.ok e) ∧
     (∀ p, p < NUM_KEYS → e.keys p = true → (∀ q, q < p → e.keys q = false) →
        ∃ e1, tick rnd e = Except.ok e1 ∧ e1.v_reg x = p ∧ e1.pc = e.pc + 2)) := by
  have hR : RAM_SIZE = 4096 := rfl
  have hop : tick rnd e = execute rnd { e with pc := e.pc + 2 } ((240 + x) * 256 + 10) :=
    tick_eq rnd e ((240 + x) * 256 + 10) hpc (by rw [hhi, hlo])
  have hn0 : ((240 + x) * 256 + 10) / 4096 % 16 = 15 := by omega
  have hn1 : ((240 + x) * 256 + 10) / 256 % 16 = x := by omega
  have hn2 : ((240 + x) * 256 + 10) / 16 % 16 = 0 := by omega
  have hn3 : ((240 + x) * 256 + 10) % 16 = 10 := by omega
  have hexec : tick rnd e =
      executeNib rnd { e with pc := e.pc + 2 } ((240 + x) * 256 + 10) 15 x 0 10 := by
    rw [hop, execute_eq, hn0, hn1, hn2, hn3]
  constructor
  · intro hnone
    have hfk : firstKey { e with pc := e.pc + 2 } = none :=
      scanKeys_none { e with pc := e.pc + 2 } NUM_KEYS 0
        (fun q hq1 hq2 => hnone q hq2)
    rw [hexec, executeNib_fx0a, hfk]
    have hpcval : (({ e with pc := e.pc + 2 }).pc + 65536 - 2) % 65536 = e.pc := by
      show (e.pc + 2 + 65536 - 2) % 65536 = e.pc
      omega
    rw [hpcval]
  · intro p hp hkp hlow
    have hfk : firstKey { e with pc := e.pc + 2 } = some p :=
      scanKeys_some { e with pc := e.pc + 2 } NUM_KEYS 0 p (Nat.zero_le p) hp hkp
        (fun q hq1 hq2 => hlow q hq2)
    refine ⟨{ { e with pc := e.pc + 2 } with
        v_reg := upd ({ e with pc := e.pc + 2 }).v_reg x p }, ?_, ?_, ?_⟩
    · rw [hexec, executeNib_fx0a, hfk]
    · exact upd_self _ _ _
    · rfl

/-- Claim C7 witness: the theorem applied on wFx0aEmu with no key pressed. -/
theorem claimC7_fx0a_witness : tick 0 wFx0aEmu = Except.ok wFx0aEmu :=
  (claimC7_fx0a 0 wFx0aEmu 0 (by decide) (by decide) (by decide) (by decide)).1
    (by decide)

/-- Claim C8 (confirmed): from a state whose call stack is not full, executing
the call instruction 2NNN and then the return instruction 00EE it jumps to
leaves PC at the address immediately following the call instruction: the pair
is a net no-op on control flow. -/
theorem claimC8_call_ret (rnd1 rnd2 : Nat) (e : Emu) (nnn : Nat)
    (hsp : e.sp < STACK_SIZE) (hpc : e.pc + 1 < RAM_SIZE)
    (hhi : e.ram e.pc = 32 + nnn / 256) (hlo : e.ram (e.pc + 1) = nnn % 256)
    (hnnn : nnn + 1 < RAM_SIZE)
    (hret0 : e.ram nnn = 0) (hret1 : e.ram (nnn + 1) = 238) :
    ∃ e1 e2, tick rnd1 e = Except.ok e1 ∧ tick rnd2 e1 = Except.ok e2 ∧
      e2.pc = e.pc + 2 := by
  have hR : RAM_SIZE = 4096 := rfl
  have h1 : tick rnd1 e =
      Except.ok { e with
        pc := nnn,
        stack := upd e.stack e.sp (e.pc + 2),
        sp := e.sp + 1 } := by
    rw [tick_eq rnd1 e (8192 + nnn) hpc (by rw [hhi, hlo]; omega)]
    rw [execute_2nnn rnd1 { e with pc := e.pc + 2 } (8192 + nnn) (by omega) hsp]
    have hval : (8192 + nnn) % 4096 = nnn := by omega
    rw [hval]
  refine ⟨_, { e with
      pc := upd e.stack e.sp (e.pc + 2) (e.sp + 1 - 1),
      stack := upd e.stack e.sp (e.pc + 2),
      sp := e.sp + 1 - 1 }, h1, ?_, ?_⟩
  · rw [tick_eq rnd2 { e with
        pc := nnn,
        stack := upd e.stack e.sp (e.pc + 2),
        sp := e.sp + 1 } 238 hnnn (by
          show e.ram nnn * 256 + e.ram (nnn + 1) = 238
          rw [hret0, hret1])]
    exact execute_ret rnd2 _ (Nat.succ_pos e.sp)
  · show upd e.stack e.sp (e.pc + 2) e.sp = e.pc + 2
    exact upd_self _ _ _

/-- Claim C8 witness: the theorem applied on wCallEmu (call 0x300 at 0x200,
return at 0x300). -/
theorem claimC8_call_ret_witness :
    ∃ e1 e2, tick 0 wCallEmu = Except.ok e1 ∧ tick 0 e1 = Except.ok e2 ∧
      e2.pc = wCallEmu.pc + 2 :=
  claimC8_call_ret 0 0 wCallEmu 768 (by decide) (by decide) (by decide) (by decide)
    (by decide) (by decide) (by decide)

/-! ## Claim C2 -/

/-- Claim C2 (code bug): the claim describes the XOR-toggle and collision
semantics of DXYN, but the code's own debug assertion bounds the screen index
by SCREEN_HEIGHT * SCREEN_HEIGHT = 1024 instead of
SCREEN_WIDTH * SCREEN_HEIGHT = 2048, so any draw whose target pixel has
y ≥ 16 panics in a debug build even though the index is correct.  Evaluated
at the failing input (anchor (0, 16), sprite byte 0x01, opcode D011): the
draw faults with the state unchanged, although the computed target index is
within the real display bounds. -/
theorem claimC2_draw_assert_fault :
    execute 0 cexDrawEmu 53265 = Except.error cexDrawEmu ∧
    screenIdx (cexDrawEmu.v_reg 0) (cexDrawEmu.v_reg 1) 0 0 <
      SCREEN_WIDTH * SCREEN_HEIGHT :=
  ⟨rfl, by decide⟩

/-! ## Claim C3: toggle-list machinery -/

theorem occ_append (j : Nat) (l1 l2 : List Nat) :
    occ j (l1 ++ l2) = occ j l1 + occ j l2 := by
  induction l1 with
  | nil => simp [occ]
  | cons a t ih => simp [occ, ih]; omega

theorem occ_range (a m : Nat) : occ a (List.range m) = if a < m then 1 else 0 := by
  induction m with
  | zero => simp [occ]
  | succ m ih =>
    rw [List.range_succ, occ_append, ih]
    show _ + occ a [m] = _
    have : occ a [m] = if a = m then 1 else 0 := by simp [occ]
    rw [this]
    by_cases h1 : a < m
    · rw [if_pos h1, if_neg (by omega), if_pos (by omega)]
    · by_cases h2 : a = m
      · rw [if_neg h1, if_pos h2, if_pos (by omega)]
      · rw [if_neg h1, if_neg h2, if_neg (by omega)]

theorem occ_pos_of_mem (a : Nat) (l : List Nat) (h : a ∈ l) : 1 ≤ occ a l := by
  induction l with
  | nil => exact absurd h (List.not_mem_nil a)
  | cons b t ih =>
    show 1 ≤ occ a t + (if a = b then 1 else 0)
    rcases List.mem_cons.mp h with h1 | h1
    · rw [if_pos h1]; omega
    · have := ih h1; omega

theorem mem_of_occ_pos (a : Nat) (l : List Nat) (h : 1 ≤ occ a l) : a ∈ l := by
  induction l with
  | nil => simp [occ] at h
  | cons b t ih =>
    by_cases hab : a = b
    · exact hab ▸ List.mem_cons_self a t
    · have h' : 1 ≤ occ a t := by
        have : occ a (b :: t) = occ a t + (if a = b then 1 else 0) := rfl
        rw [this, if_neg hab] at h; omega
      exact List.mem_cons_of_mem b (ih h')

theorem toggleAcc_append (l1 l2 : List Nat) :
    ∀ (s : Nat → Bool) (pu : Bool),
      toggleAcc s pu (l1 ++ l2) =
        toggleAcc (toggleAcc s pu l1).1 (toggleAcc s pu l1).2 l2 := by
  induction l1 with
  | nil => intro s pu; rfl
  | cons t ts ih => intro s pu; exact ih (updB s t (!s t)) (pu || s t)

theorem toggleAcc_fst (L : List Nat) :
    ∀ (s : Nat → Bool) (pu : Bool) (j : Nat),
      (toggleAcc s pu L).1 j = if occ j L % 2 = 1 then !(s j) else s j := by
  induction L with
  | nil => intro s pu j; simp [toggleAcc, occ]
  | cons t ts ih =>
    intro s pu j
    rw [show toggleAcc s pu (t :: ts) = toggleAcc (updB s t (!(s t))) (pu || s t) ts from rfl]
    rw [ih]
    by_cases hj : j = t
    · subst hj
      have hu : updB s j (!(s j)) j = !(s j) := by simp [updB]
      have ho : occ j (j :: ts) = occ j ts + 1 := by simp [occ]
      rw [hu, ho]
      rcases Nat.mod_two_eq_zero_or_one (occ j ts) with h | h
      · rw [if_neg (by omega), if_pos (by omega)]
      · rw [if_pos h, if_neg (by omega), Bool.not_not]
    · have hu : updB s t (!(s t)) j = s j := by simp [updB, hj]
      have ho : occ j (t :: ts) = occ j ts := by simp [occ, hj]
      rw [hu, ho]

theorem any_congr_mem (L : List Nat) (f g : Nat → Bool)
    (h : ∀ u ∈ L, f u = g u) : L.any f = L.any g := by
  induction L with
  | nil => rfl
  | cons a t ih =>
    simp only [List.any_cons]
    rw [h a (List.mem_cons_self a t), ih (fun u hu => h u (List.mem_cons_of_mem a hu))]

theorem toggleAcc_snd (L : List Nat) :
    ∀ (s : Nat → Bool) (pu : Bool), (∀ t, occ t L ≤ 1) →
      (toggleAcc s pu L).2 = (pu || L.any (fun t => s t)) := by
  induction L with
  | nil => intro s pu _; simp [toggleAcc]
  | cons t ts ih =>
    intro s pu hD
    rw [show toggleAcc s pu (t :: ts) = toggleAcc (updB s t (!(s t))) (pu || s t) ts from rfl]
    have hDt : ∀ u, occ u ts ≤ 1 := by
      intro u
      have : occ u (t :: ts) = occ u ts + (if u = t then 1 else 0) := rfl
      have h2 := hD u
      omega
    rw [ih (updB s t (!(s t))) (pu || s t) hDt]
    have hnt : ∀ u ∈ ts, updB s t (!(s t)) u = s u := by
      intro u hu
      have hut : u ≠ t := by
        intro hut
        subst hut
        have h1 := occ_pos_of_mem u ts hu
        have h2 := hD u
        have : occ u (u :: ts) = occ u ts + 1 := by simp [occ]
        omega
      simp [updB, hut]
    rw [any_congr_mem ts _ _ hnt]
    simp [List.any_cons, Bool.or_assoc]

theorem screenIdx_inj_col (xc yc r c c' : Nat) (hc : c < 8) (hc' : c' < 8)
    (h : screenIdx xc yc r c = screenIdx xc yc r c') : c = c' := by
  unfold screenIdx SCREEN_WIDTH SCREEN_HEIGHT at h
  rw [Nat.mod_mod_of_dvd (yc + c) (by decide : (32:Nat) ∣ 256),
    Nat.mod_mod_of_dvd (yc + c') (by decide : (32:Nat) ∣ 256)] at h
  omega

theorem screenIdx_inj_row (xc yc r r' c c' : Nat) (hr : r < 15) (hr' : r' < 15)
    (hne : r ≠ r') : screenIdx xc yc r c ≠ screenIdx xc yc r' c' := by
  intro h
  unfold screenIdx SCREEN_WIDTH SCREEN_HEIGHT at h
  rw [Nat.mod_mod_of_dvd (xc + r) (by decide : (64:Nat) ∣ 256),
    Nat.mod_mod_of_dvd (xc + r') (by decide : (64:Nat) ∣ 256)] at h
  omega

theorem exists_of_mem_colTargets (xc yc r b t : Nat) : ∀ (cols : List Nat),
    t ∈ colTargets xc yc r b cols →
      ∃ c ∈ cols, b / 2 ^ c % 2 = 1 ∧ screenIdx xc yc r c = t := by
  intro cols
  induction cols with
  | nil => intro h; exact absurd h (List.not_mem_nil t)
  | cons c cs ih =>
    intro h
    by_cases hbit : b / 2 ^ c % 2 = 1
    · rw [show colTargets xc yc r b (c :: cs) =
          screenIdx xc yc r c :: colTargets xc yc r b cs from by
        simp [colTargets, hbit]] at h
      rcases List.mem_cons.mp h with h1 | h1
      · exact ⟨c, List.mem_cons_self c cs, hbit, h1.symm⟩
      · obtain ⟨c', hc', hb', ht'⟩ := ih h1
        exact ⟨c', List.mem_cons_of_mem c hc', hb', ht'⟩
    · rw [show colTargets xc yc r b (c :: cs) = colTargets xc yc r b cs from by
        simp [colTargets, hbit]] at h
      obtain ⟨c', hc', hb', ht'⟩ := ih h
      exact ⟨c', List.mem_cons_of_mem c hc', hb', ht'⟩

theorem mem_colTargets_intro (xc yc r b : Nat) : ∀ (cols : List Nat) (c : Nat),
    c ∈ cols → b / 2 ^ c % 2 = 1 →
      screenIdx xc yc r c ∈ colTargets xc yc r b cols := by
  intro cols
  induction cols with
  | nil => intro c hc _; exact absurd hc (List.not_mem_nil c)
  | cons a cs ih =>
    intro c hc hbit
    rcases List.mem_cons.mp hc with h1 | h1
    · subst h1
      rw [show colTargets xc yc r b (c :: cs) =
          screenIdx xc yc r c :: colTargets xc yc r b cs from by
        simp [colTargets, hbit]]
      exact List.mem_cons_self _ _
    · by_cases hba : b / 2 ^ a % 2 = 1
      · rw [show colTargets xc yc r b (a :: cs) =
            screenIdx xc yc r a :: colTargets xc yc r b cs from by
          simp [colTargets, hba]]
        exact List.mem_cons_of_mem _ (ih c h1 hbit)
      · rw [show colTargets xc yc r b (a :: cs) = colTargets xc yc r b cs from by
          simp [colTargets, hba]]
        exact ih c h1 hbit

theorem occ_colTargets_eq_zero (xc yc r b t : Nat) : ∀ (cols : List Nat),
    (∀ c ∈ cols, screenIdx xc yc r c ≠ t) →
      occ t (colTargets xc yc r b cols) = 0 := by
  intro cols
  induction cols with
  | nil => intro _; rfl
  | cons c cs ih =>
    intro h
    have hcs := ih (fun c' hc' => h c' (List.mem_cons_of_mem c hc'))
    by_cases hbit : b / 2 ^ c % 2 = 1
    · rw [show colTargets xc yc r b (c :: cs) =
          screenIdx xc yc r c :: colTargets xc yc r b cs from by
        simp [colTargets, hbit]]
      show occ t (colTargets xc yc r b cs) + (if t = screenIdx xc yc r c then 1 else 0) = 0
      rw [hcs, if_neg (fun ht => h c (List.mem_cons_self c cs) ht.symm)]
    · rw [show colTargets xc yc r b (c :: cs) = colTargets xc yc r b cs from by
        simp [colTargets, hbit]]
      exact hcs

theorem occ_colTargets_le_one (xc yc r b t : Nat) : ∀ (cols : List Nat),
    (∀ c ∈ cols, c < 8) → (∀ c, occ c cols ≤ 1) →
      occ t (colTargets xc yc r b cols) ≤ 1 := by
  intro cols
  induction cols with
  | nil => intro _ _; simp [colTargets, occ]
  | cons c cs ih =>
    intro h8 hocc
    have h8' : ∀ c' ∈ cs, c' < 8 := fun c' hc' => h8 c' (List.mem_cons_of_mem c hc')
    have hocc' : ∀ c', occ c' cs ≤ 1 := by
      intro c'
      have he : occ c' (c :: cs) = occ c' cs + (if c' = c then 1 else 0) := rfl
      have h2 := hocc c'
      omega
    by_cases hbit : b / 2 ^ c % 2 = 1
    · rw [show colTargets xc yc r b (c :: cs) =
          screenIdx xc yc r c :: colTargets xc yc r b cs from by
        simp [colTargets, hbit]]
      show occ t (colTargets xc yc r b cs) + (if t = screenIdx xc yc r c then 1 else 0) ≤ 1
      by_cases ht : t = screenIdx xc yc r c
      · rw [if_pos ht]
        have h0 : occ t (colTargets xc yc r b cs) = 0 := by
          apply occ_colTargets_eq_zero
          intro c' hc' hne
          have hcc : c' = c :=
            screenIdx_inj_col xc yc r c' c (h8' c' hc') (h8 c (List.mem_cons_self c cs))
              (by rw [hne, ht])
          subst hcc
          have h1 := occ_pos_of_mem c' cs hc'
          have h2 := hocc c'
          have he : occ c' (c' :: cs) = occ c' cs + 1 := by simp [occ]
          omega
        omega
      · rw [if_neg ht]
        have := ih h8' hocc'
        omega
    · rw [show colTargets xc yc r b (c :: cs) = colTargets xc yc r b cs from by
        simp [colTargets, hbit]]
      exact ih h8' hocc'

theorem occ_rowTargets_le_one (xc yc r b t : Nat) : occ t (rowTargets xc yc r b) ≤ 1 := by
  apply occ_colTargets_le_one xc yc r b t (List.range 8)
    (fun c hc => List.mem_range.mp hc)
  intro c
  rw [occ_range]
  by_cases h : c < 8
  · rw [if_pos h]
  · rw [if_neg h]
    omega

theorem exists_of_mem_rowTargets (xc yc r b t : Nat) (h : t ∈ rowTargets xc yc r b) :
    ∃ c, c < 8 ∧ screenIdx xc yc r c = t := by
  obtain ⟨c, hc, _, ht⟩ := exists_of_mem_colTargets xc yc r b t (List.range 8) h
  exact ⟨c, List.mem_range.mp hc, ht⟩

theorem occ_drawTargets_eq_zero (e : Emu) (xc yc t : Nat) : ∀ (rows : List Nat),
    (∀ r ∈ rows, ∀ c, c < 8 → screenIdx xc yc r c ≠ t) →
      occ t (drawTargets e xc yc rows) = 0 := by
  intro rows
  induction rows with
  | nil => intro _; rfl
  | cons r rs ih =>
    intro h
    rw [show drawTargets e xc yc (r :: rs) =
        rowTargets xc yc r (e.ram ((e.i_reg + r) % 65536)) ++ drawTargets e xc yc rs from
      rfl, occ_append]
    have h1 : occ t (rowTargets xc yc r (e.ram ((e.i_reg + r) % 65536))) = 0 :=
      occ_colTargets_eq_zero xc yc r _ t (List.range 8)
        (fun c hc => h r (List.mem_cons_self r rs) c (List.mem_range.mp hc))
    have h2 := ih (fun r' hr' => h r' (List.mem_cons_of_mem r hr'))
    omega

theorem occ_drawTargets_le_one (e : Emu) (xc yc t : Nat) : ∀ (rows : List Nat),
    (∀ r ∈ rows, r < 15) → (∀ r, occ r rows ≤ 1) →
      occ t (drawTargets e xc yc rows) ≤ 1 := by
  intro rows
  induction rows with
  | nil => intro _ _; simp [drawTargets, occ]
  | cons r rs ih =>
    intro h15 hocc
    rw [show drawTargets e xc yc (r :: rs) =
        rowTargets xc yc r (e.ram ((e.i_reg + r) % 65536)) ++ drawTargets e xc yc rs from
      rfl, occ_append]
    have h15' : ∀ r' ∈ rs, r' < 15 := fun r' hr' => h15 r' (List.mem_cons_of_mem r hr')
    have hocc' : ∀ r', occ r' rs ≤ 1 := by
      intro r'
      have he : occ r' (r :: rs) = occ r' rs + (if r' = r then 1 else 0) := rfl
      have h2 := hocc r'
      omega
    have hrow : occ t (rowTargets xc yc r (e.ram ((e.i_reg + r) % 65536))) ≤ 1 :=
      occ_rowTargets_le_one xc yc r _ t
    by_cases hpos : 1 ≤ occ t (rowTargets xc yc r (e.ram ((e.i_reg + r) % 65536)))
    · obtain ⟨c, hc8, hcidx⟩ :=
        exists_of_mem_rowTargets xc yc r _ t (mem_of_occ_pos t _ hpos)
      have h0 : occ t (drawTargets e xc yc rs) = 0 := by
        apply occ_drawTargets_eq_zero
        intro r' hr' c' hc' hne
        have hrr : r' ≠ r := by
          intro heq
          subst heq
          have h1 := occ_pos_of_mem r' rs hr'
          have h2 := hocc r'
          have he : occ r' (r' :: rs) = occ r' rs + 1 := by simp [occ]
          omega
        exact screenIdx_inj_row xc yc r' r c' c (h15' r' hr')
          (h15 r (List.mem_cons_self r rs)) hrr (hne.trans hcidx.symm)
      omega
    · have h2 := ih h15' hocc'
      omega

theorem drawTargets_congr (xc yc : Nat) (e1 e2 : Emu) (hram : e1.ram = e2.ram)
    (hi : e1.i_reg = e2.i_reg) :
    ∀ rows, drawTargets e1 xc yc rows = drawTargets e2 xc yc rows := by
  intro rows
  induction rows with
  | nil => rfl
  | cons r rs ih =>
    show rowTargets xc yc r (e1.ram ((e1.i_reg + r) % 65536)) ++ drawTargets e1 xc yc rs =
      rowTargets xc yc r (e2.ram ((e2.i_reg + r) % 65536)) ++ drawTargets e2 xc yc rs
    rw [hram, hi, ih]

theorem drawCols_toggle (xc yc row b : Nat) : ∀ (cols : List Nat) (e : Emu) (pu : Bool),
    (∀ c ∈ cols, b / 2 ^ c % 2 = 1 →
      screenIdx xc yc row c < SCREEN_HEIGHT * SCREEN_HEIGHT) →
    drawCols xc yc row b cols e pu =
      Except.ok ({ e with screen := (toggleAcc e.screen pu (colTargets xc yc row b cols)).1 },
        (toggleAcc e.screen pu (colTargets xc yc row b cols)).2) := by
  intro cols
  induction cols with
  | nil => intro e pu _; rfl
  | cons c cs ih =>
    intro e pu h
    by_cases hbit : b / 2 ^ c % 2 = 1
    · rw [show drawCols xc yc row b (c :: cs) e pu =
          (if b / 2 ^ c % 2 = 1 then
            (if screenIdx xc yc row c < SCREEN_HEIGHT * SCREEN_HEIGHT then
              drawCols xc yc row b cs
                { e with
                  screen := updB e.screen (screenIdx xc yc row c) (!e.screen (screenIdx xc yc row c)) }
                (pu || e.screen (screenIdx xc yc row c))
            else Except.error e)
          else drawCols xc yc row b cs e pu) from rfl]
      rw [if_pos hbit, if_pos (h c (List.mem_cons_self c cs) hbit)]
      rw [ih _ _ (fun c' hc' hb' => h c' (List.mem_cons_of_mem c hc') hb')]
      rw [show colTargets xc yc row b (c :: cs) =
          screenIdx xc yc row c :: colTargets xc yc row b cs from by
        simp [colTargets, hbit]]
      rfl
    · rw [show drawCols xc yc row b (c :: cs) e pu =
          (if b / 2 ^ c % 2 = 1 then
            (if screenIdx xc yc row c < SCREEN_HEIGHT * SCREEN_HEIGHT then
              drawCols xc yc row b cs
                { e with
                  screen := updB e.screen (screenIdx xc yc row c) (!e.screen (screenIdx xc yc row c)) }
                (pu || e.screen (screenIdx xc yc row c))
            else Except.error e)
          else drawCols xc yc row b cs e pu) from rfl]
      rw [if_neg hbit]
      rw [ih _ _ (fun c' hc' hb' => h c' (List.mem_cons_of_mem c hc') hb')]
      rw [show colTargets xc yc row b (c :: cs) = colTargets xc yc row b cs from by
        simp [colTargets, hbit]]

theorem drawRows_toggle (xc yc : Nat) : ∀ (rows : List Nat) (e : Emu) (pu : Bool),
    (∀ r ∈ rows, (e.i_reg + r) % 65536 < RAM_SIZE) →
    (∀ r ∈ rows, ∀ c ∈ List.range 8,
      e.ram ((e.i_reg + r) % 65536) / 2 ^ c % 2 = 1 →
      screenIdx xc yc r c < SCREEN_HEIGHT * SCREEN_HEIGHT) →
    drawRows xc yc rows e pu =
      Except.ok ({ e with screen := (toggleAcc e.screen pu (drawTargets e xc yc rows)).1 },
        (toggleAcc e.screen pu (drawTargets e xc yc rows)).2) := by
  intro rows
  induction rows with
  | nil => intro e pu _ _; rfl
  | cons r rs ih =>
    intro e pu h1 h2
    rw [show drawRows xc yc (r :: rs) e pu =
        (if (e.i_reg + r) % 65536 < RAM_SIZE then
          match drawCols xc yc r (e.ram ((e.i_reg + r) % 65536)) (List.range 8) e pu with
          | Except.ok (e', pu') => drawRows xc yc rs e' pu'
          | Except.error e' => Except.error e'
        else Except.error e) from rfl]
    rw [if_pos (h1 r (List.mem_cons_self r rs))]
    rw [drawCols_toggle xc yc r (e.ram ((e.i_reg + r) % 65536)) (List.range 8) e pu
      (fun c hc hb => h2 r (List.mem_cons_self r rs) c hc hb)]
    show drawRows xc yc rs
        { e with screen :=
            (toggleAcc e.screen pu
              (colTargets xc yc r (e.ram ((e.i_reg + r) % 65536)) (List.range 8))).1 }
        (toggleAcc e.screen pu
          (colTargets xc yc r (e.ram ((e.i_reg + r) % 65536)) (List.range 8))).2 = _
    rw [ih { e with screen :=
            (toggleAcc e.screen pu
              (colTargets xc yc r (e.ram ((e.i_reg + r) % 65536)) (List.range 8))).1 }
        ((toggleAcc e.screen pu
          (colTargets xc yc r (e.ram ((e.i_reg + r) % 65536)) (List.range 8))).2)
        (fun r' hr' => h1 r' (List.mem_cons_of_mem r hr'))
        (fun r' hr' c hc hb => h2 r' (List.mem_cons_of_mem r hr') c hc hb)]
    rw [drawTargets_congr xc yc
        { e with screen :=
            (toggleAcc e.screen pu
              (colTargets xc yc r (e.ram ((e.i_reg + r) % 65536)) (List.range 8))).1 }
        e rfl rfl rs]
    conv_rhs => rw [show drawTargets e xc yc (r :: rs) =
        rowTargets xc yc r (e.ram ((e.i_reg + r) % 65536)) ++ drawTargets e xc yc rs from
      rfl, toggleAcc_append]
    rfl

theorem mem_drawTargets_intro (e : Emu) (xc yc : Nat) : ∀ (rows : List Nat) (r : Nat),
    r ∈ rows → ∀ c ∈ List.range 8,
    e.ram ((e.i_reg + r) % 65536) / 2 ^ c % 2 = 1 →
    screenIdx xc yc r c ∈ drawTargets e xc yc rows := by
  intro rows
  induction rows with
  | nil => intro r hr; exact absurd hr (List.not_mem_nil r)
  | cons r0 rs ih =>
    intro r hr c hc hb
    show _ ∈ rowTargets xc yc r0 (e.ram ((e.i_reg + r0) % 65536)) ++ drawTargets e xc yc rs
    rcases List.mem_cons.mp hr with h1 | h1
    · subst h1
      exact List.mem_append.mpr
        (Or.inl (mem_colTargets_intro xc yc r _ (List.range 8) c hc hb))
    · exact List.mem_append.mpr (Or.inr (ih r h1 c hc hb))

/-- The DXYN arm of the nibble dispatch. -/
theorem executeNib_dxyn (rnd : Nat) (e : Emu) (op x y n : Nat) :
    executeNib rnd e op 13 x y n =
      match drawRows (e.v_reg x) (e.v_reg y) (List.range n) e false with
      | Except.ok (e1, pixel_unset) =>
        Except.ok { e1 with v_reg := upd e1.v_reg 15 (if pixel_unset then 1 else 0) }
      | Except.error e1 => Except.error e1 := rfl

/-- Claim C3 (amended): drawing the same in-bounds sprite twice in succession
(anchor registers X, Y ≠ 0xF, so the VF write does not move the anchor, and
every target pixel below the buggy debug assertion bound) restores every
pixel to its prior value; VF after the first draw is 1 iff some target pixel
was set beforehand, and VF after the second draw is 1 iff some target pixel
was unset beforehand (so VF is not necessarily 1 after the first draw, see
the counterexample). -/
theorem claimC3_amended (rnd1 rnd2 : Nat) (e : Emu) (op : Nat)
    (hD : op / 4096 % 16 = 13)
    (hx : op / 256 % 16 ≠ 15) (hy : op / 16 % 16 ≠ 15)
    (hram : e.i_reg + op % 16 ≤ RAM_SIZE)
    (hsafe : ∀ t ∈ drawTargets e (e.v_reg (op / 256 % 16)) (e.v_reg (op / 16 % 16))
        (List.range (op % 16)), t < SCREEN_HEIGHT * SCREEN_HEIGHT) :
    ∃ e1 e2, execute rnd1 e op = Except.ok e1 ∧ execute rnd2 e1 op = Except.ok e2 ∧
      (∀ j, e2.screen j = e.screen j) ∧
      (e1.v_reg 15 = 1 ↔ ∃ t ∈ drawTargets e (e.v_reg (op / 256 % 16))
          (e.v_reg (op / 16 % 16)) (List.range (op % 16)), e.screen t = true) ∧
      (e2.v_reg 15 = 1 ↔ ∃ t ∈ drawTargets e (e.v_reg (op / 256 % 16))
          (e.v_reg (op / 16 % 16)) (List.range (op % 16)), e.screen t = false) := by
  have hR : RAM_SIZE = 4096 := rfl
  have hbound1 : ∀ r ∈ List.range (op % 16), (e.i_reg + r) % 65536 < RAM_SIZE := by
    intro r hr
    have hrN := List.mem_range.mp hr
    omega
  have hsafe' : ∀ r ∈ List.range (op % 16), ∀ c ∈ List.range 8,
      e.ram ((e.i_reg + r) % 65536) / 2 ^ c % 2 = 1 →
      screenIdx (e.v_reg (op / 256 % 16)) (e.v_reg (op / 16 % 16)) r c <
        SCREEN_HEIGHT * SCREEN_HEIGHT := by
    intro r hr c hc hb
    apply hsafe
    exact mem_drawTargets_intro e _ _ (List.range (op % 16)) r hr c hc hb
  set T := drawTargets e (e.v_reg (op / 256 % 16)) (e.v_reg (op / 16 % 16))
    (List.range (op % 16)) with hT
  set E1 : Emu := { e with
    screen := (toggleAcc e.screen false T).1,
    v_reg := upd e.v_reg 15 (if (toggleAcc e.screen false T).2 then 1 else 0) } with hE1
  set E2 : Emu := { e with
    screen := (toggleAcc (toggleAcc e.screen false T).1 false T).1,
    v_reg := upd (upd e.v_reg 15 (if (toggleAcc e.screen false T).2 then 1 else 0)) 15
      (if (toggleAcc (toggleAcc e.screen false T).1 false T).2 then 1 else 0) } with hE2
  have hT1 : ∀ t, occ t T ≤ 1 := by
    intro t
    rw [hT]
    apply occ_drawTargets_le_one e _ _ t (List.range (op % 16))
    · intro r hr
      have := List.mem_range.mp hr
      omega
    · intro r
      rw [occ_range]
      by_cases h : r < op % 16
      · rw [if_pos h]
      · rw [if_neg h]
        omega
  have hvx : E1.v_reg (op / 256 % 16) = e.v_reg (op / 256 % 16) := by
    rw [hE1]
    exact upd_ne _ _ _ _ hx
  have hvy : E1.v_reg (op / 16 % 16) = e.v_reg (op / 16 % 16) := by
    rw [hE1]
    exact upd_ne _ _ _ _ hy
  have h1 : execute rnd1 e op = Except.ok E1 := by
    rw [execute_eq, hD, executeNib_dxyn]
    rw [drawRows_toggle (e.v_reg (op / 256 % 16)) (e.v_reg (op / 16 % 16))
      (List.range (op % 16)) e false hbound1 hsafe']
  have hb1' : ∀ r ∈ List.range (op % 16), (E1.i_reg + r) % 65536 < RAM_SIZE := by
    intro r hr
    rw [hE1]
    exact hbound1 r hr
  have hs1' : ∀ r ∈ List.range (op % 16), ∀ c ∈ List.range 8,
      E1.ram ((E1.i_reg + r) % 65536) / 2 ^ c % 2 = 1 →
      screenIdx (e.v_reg (op / 256 % 16)) (e.v_reg (op / 16 % 16)) r c <
        SCREEN_HEIGHT * SCREEN_HEIGHT := by
    intro r hr c hc hb
    apply hsafe' r hr c hc
    rw [hE1] at hb
    exact hb
  have h2 : execute rnd2 E1 op = Except.ok E2 := by
    rw [execute_eq, hD, executeNib_dxyn, hvx, hvy]
    rw [drawRows_toggle (e.v_reg (op / 256 % 16)) (e.v_reg (op / 16 % 16))
      (List.range (op % 16)) E1 false hb1' hs1']
    rw [drawTargets_congr (e.v_reg (op / 256 % 16)) (e.v_reg (op / 16 % 16)) E1 e
      (by rw [hE1]) (by rw [hE1]) (List.range (op % 16))]
  refine ⟨E1, E2, h1, h2, ?_, ?_, ?_⟩
  · intro j
    rw [hE2]
    show (toggleAcc (toggleAcc e.screen false T).1 false T).1 j = e.screen j
    rw [toggleAcc_fst T, toggleAcc_fst T]
    by_cases hp : occ j T % 2 = 1
    · rw [if_pos hp, if_pos hp, Bool.not_not]
    · rw [if_neg hp, if_neg hp]
  · rw [hE1]
    show upd e.v_reg 15 (if (toggleAcc e.screen false T).2 then 1 else 0) 15 = 1 ↔ _
    rw [upd_self, toggleAcc_snd T e.screen false hT1, Bool.false_or]
    constructor
    · intro hone
      by_cases hA : T.any (fun t => e.screen t) = true
      · exact List.any_eq_true.mp hA
      · rw [if_neg hA] at hone
        exact absurd hone (by decide)
    · intro hex
      rw [if_pos (List.any_eq_true.mpr hex)]
  · rw [hE2]
    show upd (upd e.v_reg 15 (if (toggleAcc e.screen false T).2 then 1 else 0)) 15
      (if (toggleAcc (toggleAcc e.screen false T).1 false T).2 then 1 else 0) 15 = 1 ↔ _
    rw [upd_self, toggleAcc_snd T _ false hT1, Bool.false_or]
    have hS1mem : ∀ t ∈ T, (toggleAcc e.screen false T).1 t = !(e.screen t) := by
      intro t ht
      rw [toggleAcc_fst T]
      have hp1 := occ_pos_of_mem t T ht
      have hp2 := hT1 t
      rw [if_pos (by omega)]
    rw [any_congr_mem T _ _ hS1mem]
    constructor
    · intro hone
      by_cases hA : T.any (fun t => !(e.screen t)) = true
      · obtain ⟨t, ht, hbt⟩ := List.any_eq_true.mp hA
        refine ⟨t, ht, ?_⟩
        cases hsc : e.screen t
        · rfl
        · rw [hsc] at hbt
          exact absurd hbt (by decide)
      · rw [if_neg hA] at hone
        exact absurd hone (by decide)
    · rintro ⟨t, ht, hft⟩
      rw [if_pos (List.any_eq_true.mpr ⟨t, ht, by rw [hft]; rfl⟩)]

/-- Claim C3 counterexample: on a blank screen (no key facts needed beyond
cexDraw2Emu), the first draw of sprite 0x01 at (0, 0) toggles one pixel from
unset to set and reports VF = 0, not VF = 1 as the claim requires after the
first draw. -/
theorem claimC3_counterexample :
    ¬ (∀ e1, execute 0 cexDraw2Emu 53265 = Except.ok e1 → e1.v_reg 15 = 1) := by
  intro h
  have h1 := h _ rfl
  exact absurd h1 (by decide)

/-- Claim C3 witness: the amended theorem applied to the blank-screen state
with opcode D011. -/
theorem claimC3_amended_witness :
    ∃ e1 e2, execute 0 cexDraw2Emu 53265 = Except.ok e1 ∧
      execute 0 e1 53265 = Except.ok e2 ∧
      (∀ j, e2.screen j = cexDraw2Emu.screen j) ∧
      (e1.v_reg 15 = 1 ↔ ∃ t ∈ drawTargets cexDraw2Emu
          (cexDraw2Emu.v_reg (53265 / 256 % 16)) (cexDraw2Emu.v_reg (53265 / 16 % 16))
          (List.range (53265 % 16)), cexDraw2Emu.screen t = true) ∧
      (e2.v_reg 15 = 1 ↔ ∃ t ∈ drawTargets cexDraw2Emu
          (cexDraw2Emu.v_reg (53265 / 256 % 16)) (cexDraw2Emu.v_reg (53265 / 16 % 16))
          (List.range (53265 % 16)), cexDraw2Emu.screen t = false) :=
  claimC3_amended 0 0 cexDraw2Emu 53265 (by decide) (by decide) (by decide) (by decide)
    (by decide)
